import Mathlib

/-!
Verification of the TensorZero example notebooks
(`examples/ner-fine-tuning-demonstrations/conll.ipynb` and
`examples/haiku-hidden-preferences/haiku.ipynb`).

The notebooks' pure logic (evaluation metrics, per-request error handling,
retry, batch fan-out, analytics queries, semaphore-bounded concurrency)
is shallowly embedded below and the spec's claims about it are settled.
-/

set_option maxRecDepth 100000

namespace TZExamples

/-! ## Data model

A Python `Dict[str, List[str]]` mapping category names to lists of entity
strings is embedded as an association list.  A Python dict has distinct keys
and a definite iteration (insertion) order, both of which an association
list represents; none of the theorems below need the distinct-key property,
so it is not imposed. -/

abbrev PyDict := List (String × List String)

/-! ## `flatten_dict` (conll.ipynb, cell 9)

```python
def flatten_dict(d: Dict[str, List[str]]) -> List[str]:
    res = []
    for k, v in d.items():
        assert isinstance(v, list)
        for elt in v:
            res.append(f"__{k.upper()}__::{elt}")
    return res
```
-/

/-- Python's `str.upper()`: uppercase the string character by character. -/
def pyUpper (s : String) : String :=
  ⟨s.data.map Char.toUpper⟩

/-- The tag the inner loop appends for key `k` and element `elt`:
the f-string `__{k.upper()}__::{elt}`. -/
def tagEntry (k elt : String) : String :=
  "__" ++ pyUpper k ++ "__::" ++ elt

/-- `flatten_dict`: iterate over the entries in order, appending the tag of
every element of every value list. -/
def flatten_dict : PyDict → List String
  | [] => []
  | (k, v) :: rest => v.map (tagEntry k) ++ flatten_dict rest

/-! ## `exact_match` (conll.ipynb, cell 10)

```python
def exact_match(predicted, gold) -> bool:
    return set(flatten_dict(predicted)) == set(flatten_dict(gold))
```
-/

def exact_match (predicted gold : PyDict) : Bool :=
  decide ((flatten_dict predicted).toFinset = (flatten_dict gold).toFinset)

/-! ## `jaccard_similarity` (conll.ipynb, cell 11)

```python
def jaccard_similarity(predicted, gold) -> float:
    target_entities = flatten_dict(gold)
    pred_entities = flatten_dict(predicted)
    target_count = Counter(target_entities)
    pred_count = Counter(pred_entities)
    num = 0
    den = 0
    all_keys = set(target_entities).union(set(pred_entities))
    for key in all_keys:
        num += min(target_count.get(key, 0), pred_count.get(key, 0))
        den += max(target_count.get(key, 0), pred_count.get(key, 0))
    if den == 0:
        return 1
    return num / den
```

`Counter(lst).get(key, 0)` is the number of occurrences of `key` in `lst`.
The loop accumulates `num` and `den` over the set `all_keys`; since natural
addition is commutative the set's iteration order is irrelevant and the two
accumulations are `Finset.sum`s.  The final division is exact (embedded in
`ℚ`). -/

/-- `Counter(l).get(key, 0)`: the multiplicity of `key` in `l`. -/
def counterGet (l : List String) (key : String) : Nat :=
  l.count key

def jaccard_similarity (predicted gold : PyDict) : ℚ :=
  let target_entities := flatten_dict gold
  let pred_entities := flatten_dict predicted
  let all_keys : Finset String := target_entities.toFinset ∪ pred_entities.toFinset
  let num : Nat := all_keys.sum fun key =>
    min (counterGet target_entities key) (counterGet pred_entities key)
  let den : Nat := all_keys.sum fun key =>
    max (counterGet target_entities key) (counterGet pred_entities key)
  if den = 0 then 1 else (num : ℚ) / (den : ℚ)

/-! ## Spec-form definitions (for the refinement claims C1 and C2)

These follow the words of the spec and of the claims, to be compared with
the source-derived definitions above: "each key is the string
`'__' + uppercased category name + '__::' + entity value`", summed "over
all keys in the union of the two flattened entry multisets". -/

/-- Spec's key format: `'__' + uppercased category name + '__::' + entity value`. -/
def specKey (category value : String) : String :=
  "__" ++ pyUpper category ++ "__::" ++ value

/-- Spec's flattened entry multiset of a dictionary: one occurrence of
`specKey category value` for each value in each category's list. -/
def specEntries (d : PyDict) : Multiset String :=
  (d.map fun kv => ((kv.2.map (specKey kv.1) : List String) : Multiset String)).sum

/-- The Jaccard similarity as the spec words it: the sum over all keys in the
union of the two flattened entry multisets of the minimum of the two
multiplicity counts, divided by the sum of the maxima, the zero-denominator
case handled separately (value 1). -/
def jaccardSpec (predicted gold : PyDict) : ℚ :=
  let mp := specEntries predicted
  let mg := specEntries gold
  let keys : Finset String := mp.toFinset ∪ mg.toFinset
  let num : Nat := keys.sum fun key => min (mp.count key) (mg.count key)
  let den : Nat := keys.sum fun key => max (mp.count key) (mg.count key)
  if den = 0 then 1 else (num : ℚ) / (den : ℚ)

/-! Basic bridge lemmas between the source-form and spec-form definitions. -/

theorem specEntries_eq_flatten (d : PyDict) :
    specEntries d = (flatten_dict d : Multiset String) := by
  induction d with
  | nil => rfl
  | cons kv rest ih =>
    obtain ⟨k, v⟩ := kv
    have h1 : specEntries ((k, v) :: rest)
        = ((v.map (specKey k) : List String) : Multiset String) + specEntries rest := by
      simp [specEntries]
    rw [h1, ih]
    show _ = ((v.map (tagEntry k) ++ flatten_dict rest : List String) : Multiset String)
    rw [Multiset.coe_add]
    rfl

theorem toFinset_specEntries (d : PyDict) :
    (specEntries d).toFinset = (flatten_dict d).toFinset := by
  rw [specEntries_eq_flatten]
  exact List.toFinset_coe _

theorem count_specEntries (d : PyDict) (s : String) :
    (specEntries d).count s = counterGet (flatten_dict d) s := by
  rw [specEntries_eq_flatten]
  simp [counterGet]

/-- C1: `jaccard_similarity(predicted, gold)` equals the sum, over all keys in
the union of the two flattened entry multisets, of the minimum of the two
multiplicity counts, divided by the sum of the maxima, with each key being
`'__' + uppercased category + '__::' + entity value` and the zero-denominator
case handled separately. -/
theorem jaccard_similarity_eq_spec (predicted gold : PyDict) :
    jaccard_similarity predicted gold = jaccardSpec predicted gold := by
  have hset : (flatten_dict gold).toFinset ∪ (flatten_dict predicted).toFinset
      = (specEntries predicted).toFinset ∪ (specEntries gold).toFinset := by
    rw [toFinset_specEntries, toFinset_specEntries, Finset.union_comm]
  have hmin : (((flatten_dict gold).toFinset ∪ (flatten_dict predicted).toFinset).sum
        fun key => min (counterGet (flatten_dict gold) key) (counterGet (flatten_dict predicted) key))
      = ((specEntries predicted).toFinset ∪ (specEntries gold).toFinset).sum
        fun key => min ((specEntries predicted).count key) ((specEntries gold).count key) := by
    rw [hset]
    exact Finset.sum_congr rfl fun key _ => by
      rw [count_specEntries, count_specEntries, Nat.min_comm]
  have hmax : (((flatten_dict gold).toFinset ∪ (flatten_dict predicted).toFinset).sum
        fun key => max (counterGet (flatten_dict gold) key) (counterGet (flatten_dict predicted) key))
      = ((specEntries predicted).toFinset ∪ (specEntries gold).toFinset).sum
        fun key => max ((specEntries predicted).count key) ((specEntries gold).count key) := by
    rw [hset]
    exact Finset.sum_congr rfl fun key _ => by
      rw [count_specEntries, count_specEntries, Nat.max_comm]
  simp only [jaccard_similarity, jaccardSpec]
  rw [hmin, hmax]

/-- C2: `exact_match(predicted, gold)` returns `True` iff the set of flattened
tagged entries of `predicted` equals that of `gold`, each entry being
`'__' + uppercased category + '__::' + entity value`. -/
theorem exact_match_iff_set_eq (predicted gold : PyDict) :
    exact_match predicted gold = true ↔
      ∀ s : String, s ∈ specEntries predicted ↔ s ∈ specEntries gold := by
  simp only [exact_match, decide_eq_true_eq, Finset.ext_iff, List.mem_toFinset,
    specEntries_eq_flatten, Multiset.mem_coe]

/-- C3: whenever both dictionaries flatten to no entries, so that the summed
per-key maximum count is 0, `jaccard_similarity` returns 1. -/
theorem jaccard_similarity_of_empty_flatten (predicted gold : PyDict)
    (hp : flatten_dict predicted = []) (hg : flatten_dict gold = []) :
    jaccard_similarity predicted gold = 1 := by
  simp [jaccard_similarity, hp, hg]

theorem jaccard_similarity_of_empty_flatten_witness :
    flatten_dict ([] : PyDict) = [] ∧ jaccard_similarity [] [] = 1 :=
  ⟨rfl, jaccard_similarity_of_empty_flatten [] [] rfl rfl⟩

/-! ## `evaluate` (conll.ipynb, cell 15)

```python
def evaluate(response: Optional[InferenceResponse], gold_data):
    predicted = response.output.parsed if response else None
    valid_json = predicted is not None
    matched = exact_match(predicted, gold_data) if predicted else False
    jaccard = jaccard_similarity(predicted, gold_data) if predicted else 0
    return valid_json, matched, jaccard
```

`response.output.parsed` may be `None` when the gateway could not parse the
model output as JSON.  Python's `if predicted` tests truthiness: both `None`
and the empty dict `{}` are falsy. -/

structure NerOutput where
  parsed : Option PyDict

structure NerResponse where
  output : NerOutput

def evaluate (response : Option NerResponse) (gold_data : PyDict) : Bool × Bool × ℚ :=
  let predicted : Option PyDict :=
    match response with
    | some r => r.output.parsed
    | none => none
  let valid_json : Bool := predicted.isSome
  let matched : Bool :=
    match predicted with
    | some p => if p.isEmpty then false else exact_match p gold_data
    | none => false
  let jaccard : ℚ :=
    match predicted with
    | some p => if p.isEmpty then 0 else jaccard_similarity p gold_data
    | none => 0
  (valid_json, matched, jaccard)

/-- C9: a present response whose parsed output is the empty dictionary gives
`valid_json = True`, `matched = False`, `jaccard = 0` for every gold
dictionary (the empty dict is falsy, so the metric functions are never
consulted) — even for empty gold, where the metrics themselves would have
returned `True` and `1`. -/
theorem evaluate_empty_parsed_output (gold_data : PyDict) :
    evaluate (some ⟨⟨some []⟩⟩) gold_data = (true, false, 0)
      ∧ exact_match [] [] = true ∧ jaccard_similarity [] [] = 1 :=
  ⟨rfl, rfl, by decide⟩

/-! ## Invariance of the metrics under permutation of the flattened entries
(used for C10: key casing cannot be distinguished). -/

theorem tagEntry_congr (k k' : String) (h : pyUpper k = pyUpper k') :
    tagEntry k = tagEntry k' :=
  funext fun elt => by unfold tagEntry; rw [h]

theorem flatten_dict_append (a b : PyDict) :
    flatten_dict (a ++ b) = flatten_dict a ++ flatten_dict b := by
  induction a with
  | nil => rfl
  | cons kv rest ih =>
    obtain ⟨k, v⟩ := kv
    simp [flatten_dict, ih]

theorem exact_match_congr (p p' g g' : PyDict)
    (hp : (flatten_dict p).Perm (flatten_dict p'))
    (hg : (flatten_dict g).Perm (flatten_dict g')) :
    exact_match p g = exact_match p' g' := by
  unfold exact_match
  rw [List.toFinset_eq_of_perm _ _ hp, List.toFinset_eq_of_perm _ _ hg]

theorem jaccard_similarity_congr (p p' g g' : PyDict)
    (hp : (flatten_dict p).Perm (flatten_dict p'))
    (hg : (flatten_dict g).Perm (flatten_dict g')) :
    jaccard_similarity p g = jaccard_similarity p' g' := by
  have hcp : counterGet (flatten_dict p) = counterGet (flatten_dict p') :=
    funext fun key => hp.count_eq key
  have hcg : counterGet (flatten_dict g) = counterGet (flatten_dict g') :=
    funext fun key => hg.count_eq key
  simp only [jaccard_similarity]
  rw [List.toFinset_eq_of_perm _ _ hp, List.toFinset_eq_of_perm _ _ hg, hcp, hcg]

/-- C10: the metrics cannot distinguish category keys that differ only in
letter case.  Recasing one key (first conjunct) or merging two keys that
collide after uppercasing (second conjunct) leaves `flatten_dict`'s output
the same up to reordering, and therefore leaves `exact_match` and
`jaccard_similarity` unchanged in either argument position. -/
theorem metrics_key_case_insensitive :
    (∀ (pre post : PyDict) (k k' : String) (v : List String) (g : PyDict),
      pyUpper k = pyUpper k' →
        (flatten_dict (pre ++ (k, v) :: post)).Perm (flatten_dict (pre ++ (k', v) :: post))
        ∧ exact_match (pre ++ (k, v) :: post) g = exact_match (pre ++ (k', v) :: post) g
        ∧ jaccard_similarity (pre ++ (k, v) :: post) g
            = jaccard_similarity (pre ++ (k', v) :: post) g
        ∧ exact_match g (pre ++ (k, v) :: post) = exact_match g (pre ++ (k', v) :: post)
        ∧ jaccard_similarity g (pre ++ (k, v) :: post)
            = jaccard_similarity g (pre ++ (k', v) :: post))
    ∧ (∀ (pre mid post : PyDict) (k k' : String) (v v' : List String) (g : PyDict),
      pyUpper k = pyUpper k' →
        (flatten_dict (pre ++ (k, v) :: mid ++ (k', v') :: post)).Perm
          (flatten_dict (pre ++ (k, v ++ v') :: mid ++ post))
        ∧ exact_match (pre ++ (k, v) :: mid ++ (k', v') :: post) g
            = exact_match (pre ++ (k, v ++ v') :: mid ++ post) g
        ∧ jaccard_similarity (pre ++ (k, v) :: mid ++ (k', v') :: post) g
            = jaccard_similarity (pre ++ (k, v ++ v') :: mid ++ post) g
        ∧ exact_match g (pre ++ (k, v) :: mid ++ (k', v') :: post)
            = exact_match g (pre ++ (k, v ++ v') :: mid ++ post)
        ∧ jaccard_similarity g (pre ++ (k, v) :: mid ++ (k', v') :: post)
            = jaccard_similarity g (pre ++ (k, v ++ v') :: mid ++ post)) := by
  constructor
  · intro pre post k k' v g h
    have hfl : flatten_dict (pre ++ (k, v) :: post) = flatten_dict (pre ++ (k', v) :: post) := by
      rw [flatten_dict_append, flatten_dict_append]
      show _ ++ (v.map (tagEntry k) ++ _) = _ ++ (v.map (tagEntry k') ++ _)
      rw [tagEntry_congr k k' h]
    have hperm : (flatten_dict (pre ++ (k, v) :: post)).Perm
        (flatten_dict (pre ++ (k', v) :: post)) := hfl ▸ List.Perm.refl _
    exact ⟨hperm,
      exact_match_congr _ _ _ _ hperm (List.Perm.refl _),
      jaccard_similarity_congr _ _ _ _ hperm (List.Perm.refl _),
      exact_match_congr _ _ _ _ (List.Perm.refl _) hperm,
      jaccard_similarity_congr _ _ _ _ (List.Perm.refl _) hperm⟩
  · intro pre mid post k k' v v' g h
    have hperm : (flatten_dict (pre ++ (k, v) :: mid ++ (k', v') :: post)).Perm
        (flatten_dict (pre ++ (k, v ++ v') :: mid ++ post)) := by
      rw [← Multiset.coe_eq_coe]
      simp only [flatten_dict_append, flatten_dict, List.map_append,
        tagEntry_congr k k' h, ← Multiset.coe_add]
      abel
    exact ⟨hperm,
      exact_match_congr _ _ _ _ hperm (List.Perm.refl _),
      jaccard_similarity_congr _ _ _ _ hperm (List.Perm.refl _),
      exact_match_congr _ _ _ _ (List.Perm.refl _) hperm,
      jaccard_similarity_congr _ _ _ _ (List.Perm.refl _) hperm⟩

theorem metrics_key_case_insensitive_witness :
    pyUpper "loc" = pyUpper "Loc" ∧
      jaccard_similarity [("loc", ["Paris"])] [("Loc", ["Paris"])]
        = jaccard_similarity [("Loc", ["Paris"])] [("Loc", ["Paris"])] :=
  ⟨by decide,
    (metrics_key_case_insensitive.1 [] [] "loc" "Loc" ["Paris"]
      [("Loc", ["Paris"])] (by decide)).2.2.1⟩

/-! ## Retry and per-request error handling
(conll.ipynb cell 7; haiku.ipynb cell 5)

```python
@retry(stop=stop_after_attempt(3), wait=wait_random_exponential(multiplier=1, max=10))
async def _get_entities(text, client, variant_name=None, dryrun=False) -> InferenceResponse:
    return await client.inference(...)

async def get_entities(text, client, variant_name=None, dryrun=False):
    try:
        return await _get_entities(text, client, variant_name, dryrun)
    except Exception as e:
        print(f"Error: {e}")
        return None
```

A call to the external gateway either returns a response or raises; one
attempt is embedded as an `Except String α` (error = the raised exception's
message).  Since a fresh attempt may behave differently, the gateway is an
oracle `Nat → Except String α` giving the outcome of each numbered attempt. -/

/-- Modelled from the spec: the `tenacity` retry wrapper (the library is an
external dependency, not part of this repository).  Per the spec it wraps
only the inference call "with bounded attempts and randomized backoff":
re-run the wrapped call after a failure until an attempt succeeds or the
stop condition is reached, the final failure being re-raised.  `attempt` is
the current attempt number and `remaining` the number of further attempts
the stop condition still allows. -/
def retryCall (oracle : Nat → Except String α) : Nat → Nat → Except String α
  | attempt, 0 => oracle attempt
  | attempt, r + 1 =>
    match oracle attempt with
    | .ok v => .ok v
    | .error _ => retryCall oracle (attempt + 1) r

/-- `_get_entities`: the gateway inference wrapped in
`stop_after_attempt(3)`, i.e. attempts numbered 1, 2, 3. -/
def _get_entities (oracle : Nat → Except String α) : Except String α :=
  retryCall oracle 1 2

/-- `get_entities`: the retried call inside `try:`, with any exception
caught, printed, and converted to `None`.  Returns the result together with
the printed log lines. -/
def get_entities (oracle : Nat → Except String α) : Option α × List String :=
  match _get_entities oracle with
  | .ok v => (some v, [])
  | .error e => (none, ["Error: " ++ e])

/-- Modelled from the spec: the randomized exponential backoff of
`wait_random_exponential(multiplier=1, max=10)` — before retrying after the
`n`-th failed attempt the wrapper sleeps a uniformly random fraction
`u ∈ [0, 1]` of the exponentially growing window `multiplier * 2 ^ n`
capped at `max = 10` seconds. -/
def backoffWait (u : ℚ) (n : Nat) : ℚ :=
  u * min ((1 : ℚ) * 2 ^ n) 10

/-! ## `write_grade_haiku` (haiku.ipynb cell 5)

Each of its two gateway inferences sits in its own `try` block whose
`except` clause prints and returns `None`; the later
`judge_result.output.parsed["score"]` subscript is outside both blocks, so
a failure there would propagate (hence the outer `Except`). -/

/-- A chat inference response: the first content block's text, the
inference id and the episode id. -/
structure HaikuResponse where
  contentText : String
  inference_id : String
  episode_id : String

/-- A JSON judge response: `output.parsed["score"]` when present. -/
structure JudgeResponse where
  parsedScore : Option Bool

/-- `haiku_text.strip().split("\n")` followed by `"\n".join(lines[-3:])`:
keep only the last three lines. -/
def lastThreeLines (s : String) : String :=
  let lines := s.trim.splitOn "\n"
  String.intercalate "\n" (lines.drop (lines.length - 3))

def write_grade_haiku (topic : String)
    (inferHaiku : String → Except String HaikuResponse)
    (inferJudge : String → String → String → Except String JudgeResponse) :
    Except String (Option (String × Bool × String) × List String) :=
  match inferHaiku topic with
  | .error e => .ok (none, [e])
  | .ok haiku_result =>
    let haiku_text := lastThreeLines haiku_result.contentText
    match inferJudge topic haiku_text haiku_result.episode_id with
    | .error e => .ok (none, ["Error occurred: " ++ e])
    | .ok judge_result =>
      match judge_result.parsedScore with
      | none => .error "TypeError"
      | some score => .ok (some (haiku_text, score, haiku_result.inference_id), [])

/-- C4: an exception from the inference call (after retries) is caught,
logged and converted to an absent result instead of propagating:
`get_entities` returns `None` on any exception surfaced by `_get_entities`,
and `write_grade_haiku` returns `None` (no uncaught exception) when either
of its two inference calls raises. -/
theorem inference_errors_yield_none :
    (∀ (α : Type) (oracle : Nat → Except String α) (e : String),
      _get_entities oracle = .error e →
        get_entities oracle = (none, ["Error: " ++ e]))
    ∧ (∀ (topic : String) (inferHaiku : String → Except String HaikuResponse)
        (inferJudge : String → String → String → Except String JudgeResponse)
        (e : String),
      inferHaiku topic = .error e →
        write_grade_haiku topic inferHaiku inferJudge = .ok (none, [e]))
    ∧ (∀ (topic : String) (inferHaiku : String → Except String HaikuResponse)
        (inferJudge : String → String → String → Except String JudgeResponse)
        (hr : HaikuResponse) (e : String),
      inferHaiku topic = .ok hr →
      inferJudge topic (lastThreeLines hr.contentText) hr.episode_id = .error e →
        write_grade_haiku topic inferHaiku inferJudge
          = .ok (none, ["Error occurred: " ++ e])) := by
  refine ⟨?_, ?_, ?_⟩
  · intro α oracle e h
    simp [get_entities, h]
  · intro topic inferHaiku inferJudge e h
    simp [write_grade_haiku, h]
  · intro topic inferHaiku inferJudge hr e h1 h2
    simp [write_grade_haiku, h1, h2]

theorem inference_errors_yield_none_witness :
    get_entities (fun _ => (.error "APIConnectionError" : Except String Nat))
        = (none, ["Error: APIConnectionError"])
    ∧ write_grade_haiku "sunrise" (fun _ => .error "ReadTimeout")
        (fun _ _ _ => .ok ⟨some true⟩) = .ok (none, ["ReadTimeout"])
    ∧ write_grade_haiku "sunrise" (fun _ => .ok ⟨"line1\nline2\nline3", "id0", "ep0"⟩)
        (fun _ _ _ => .error "judge ReadTimeout")
        = .ok (none, ["Error occurred: judge ReadTimeout"]) :=
  ⟨inference_errors_yield_none.1 Nat _ "APIConnectionError" rfl,
   inference_errors_yield_none.2.1 "sunrise" _ _ "ReadTimeout" rfl,
   inference_errors_yield_none.2.2 "sunrise" _ _ ⟨"line1\nline2\nline3", "id0", "ep0"⟩
     "judge ReadTimeout" rfl rfl⟩

/-- C5: the retry policy wraps only the inference call: `_get_entities`
consults the gateway on at most the attempts numbered 1, 2, 3 (so at most 3
attempts); the randomized wait between attempts lies in the exponential
window `[0, min (1 * 2 ^ n) 10]`, hence is capped at 10; and when all three
attempts fail, the last failure surfaces from `_get_entities` and
`get_entities` turns it into the same absent result `None`. -/
theorem retry_policy :
    (∀ (α : Type) (oracle oracle' : Nat → Except String α),
      (∀ n, 1 ≤ n → n ≤ 3 → oracle n = oracle' n) →
        _get_entities oracle = _get_entities oracle')
    ∧ (∀ (u : ℚ) (n : Nat), 0 ≤ u → u ≤ 1 →
        0 ≤ backoffWait u n
        ∧ backoffWait u n ≤ min ((1 : ℚ) * 2 ^ n) 10
        ∧ backoffWait u n ≤ 10)
    ∧ (∀ (α : Type) (oracle : Nat → Except String α) (e₁ e₂ e₃ : String),
      oracle 1 = .error e₁ → oracle 2 = .error e₂ → oracle 3 = .error e₃ →
        _get_entities oracle = .error e₃
        ∧ get_entities oracle = (none, ["Error: " ++ e₃])) := by
  refine ⟨?_, ?_, ?_⟩
  · intro α oracle oracle' h
    have h1 := h 1 (by omega) (by omega)
    have h2 := h 2 (by omega) (by omega)
    have h3 := h 3 (by omega) (by omega)
    simp only [_get_entities, retryCall, h1, h2, h3]
  · intro u n h0 h1
    have hm : (0 : ℚ) ≤ min ((1 : ℚ) * 2 ^ n) 10 := by positivity
    have hle : backoffWait u n ≤ min ((1 : ℚ) * 2 ^ n) 10 := by
      calc backoffWait u n = u * min ((1 : ℚ) * 2 ^ n) 10 := rfl
        _ ≤ 1 * min ((1 : ℚ) * 2 ^ n) 10 := mul_le_mul_of_nonneg_right h1 hm
        _ = min ((1 : ℚ) * 2 ^ n) 10 := one_mul _
    exact ⟨mul_nonneg h0 hm, hle, le_trans hle (min_le_right _ _)⟩
  · intro α oracle e₁ e₂ e₃ h1 h2 h3
    have hg : _get_entities oracle = .error e₃ := by
      simp only [_get_entities, retryCall, h1, h2, h3]
    exact ⟨hg, by simp [get_entities, hg]⟩

theorem retry_policy_witness :
    (∀ n, 1 ≤ n → n ≤ 3 →
      (fun _ => (.error "timeout" : Except String Nat)) n
        = (fun _ => (.error "timeout" : Except String Nat)) n)
    ∧ 0 ≤ backoffWait (1 / 2) 1 ∧ backoffWait (1 / 2) 1 ≤ 10
    ∧ get_entities (fun _ => (.error "timeout" : Except String Nat))
        = (none, ["Error: timeout"]) :=
  ⟨fun _ _ _ => rfl,
   (retry_policy.2.1 (1 / 2) 1 (by norm_num) (by norm_num)).1,
   (retry_policy.2.1 (1 / 2) 1 (by norm_num) (by norm_num)).2.2,
   (retry_policy.2.2 Nat (fun _ => .error "timeout") "timeout" "timeout" "timeout"
     rfl rfl rfl).2⟩

/-! ## Batch fan-out (conll.ipynb cells 14, 17, 30, 32; haiku.ipynb cell 6)

```python
responses = await tqdm_asyncio.gather(
    *[make_inference(text, tensorzero_client)
      for text in train_df["input"][:NUM_TRAIN_PREDICTIONS]])
...
zip(responses, train_df["output"][:NUM_TRAIN_PREDICTIONS])
```
-/

/-- Modelled from the spec: `asyncio.gather` / `tqdm_asyncio.gather` (an
external library, not part of this repository) awaits its argument tasks
concurrently — completions happen in no guaranteed order — and returns
their results "zipped positionally": one result per task, in the positional
order the tasks were passed.  A batch built by the comprehension
`[f(x) for x in inputs]` therefore gathers to the list of per-input results
in input order. -/
def gatherBatch (f : α → β) (inputs : List α) : List β :=
  inputs.map f

/-- C6: the gathered results list has exactly one entry per input, in input
order, so zipping it with the gold outputs taken from the same positions
pairs each response with the gold label of the text that produced it. -/
theorem gather_positional (f : α → β) (inputs : List α) (golds : List γ)
    (i : Nat) (h1 : i < inputs.length) (h2 : i < golds.length) :
    (gatherBatch f inputs).length = inputs.length
    ∧ ∃ hz : i < ((gatherBatch f inputs).zip golds).length,
        ((gatherBatch f inputs).zip golds).get ⟨i, hz⟩
          = (f (inputs.get ⟨i, h1⟩), golds.get ⟨i, h2⟩) := by
  have hlen : (gatherBatch f inputs).length = inputs.length := List.length_map _ _
  have hz : i < ((gatherBatch f inputs).zip golds).length := by
    rw [List.length_zip, hlen]
    omega
  refine ⟨hlen, hz, ?_⟩
  simp [gatherBatch, List.get_eq_getElem, List.getElem_zip]

theorem gather_positional_witness :
    (gatherBatch Nat.succ [10, 20]).length = 2
    ∧ ∃ hz : 1 < ((gatherBatch Nat.succ [10, 20]).zip ["a", "b"]).length,
        ((gatherBatch Nat.succ [10, 20]).zip ["a", "b"]).get ⟨1, hz⟩
          = (21, "b") :=
  gather_positional Nat.succ [10, 20] ["a", "b"] 1 (by decide) (by decide)

/-! ## Analytics queries
(conll.ipynb cells 21-22 and 24-25; haiku.ipynb cells 10-11)

Each notebook sends a SQL string through `clickhouse_client.query_df` and
then aggregates the returned dataframe with
`df.groupby("variant_name")["value"].mean()`.  The SQL strings are
transcribed verbatim (`\x27` is the single-quote character). -/

/-- `needle` is a prefix of `haystack`. -/
def prefixAt : List Char → List Char → Bool
  | [], _ => true
  | _ :: _, [] => false
  | c :: cs, d :: ds => c == d && prefixAt cs ds

/-- `needle` occurs as a contiguous run inside `haystack`. -/
def subOccurs (needle : List Char) : List Char → Bool
  | [] => needle.isEmpty
  | c :: rest => prefixAt needle (c :: rest) || subOccurs needle rest

/-- `needle` occurs as a contiguous substring of `haystack`. -/
def containsSub (needle haystack : String) : Bool :=
  subOccurs needle.data haystack.data

/-- `df.groupby("variant_name")["value"].mean()` applied to rows of
`(variant_name, value)`: for each distinct variant, the arithmetic mean of
its values. -/
def variantMeans (rows : List (String × ℚ)) : List (String × ℚ) :=
  (rows.map Prod.fst).dedup.map fun v =>
    let vals := (rows.filter fun r => r.1 == v).map Prod.snd
    (v, vals.sum / (vals.length : ℚ))

/-- One analytics step of the notebooks: the SQL text sent through
`clickhouse_client.query_df`, and the aggregation applied to the returned
`(variant_name, value)` rows. -/
structure AnalyticsStep where
  sql : String
  aggregate : List (String × ℚ) → List (String × ℚ)

/-- conll.ipynb cell 21 (exact-match feedback), aggregated in cell 22. -/
def nerExactMatchStep : AnalyticsStep :=
  ⟨"SELECT \n    i.variant_name, \n    i.input, \n    i.output, \n    b.value\nFROM \n    JsonInference i\nJOIN \n    BooleanMetricFeedback b ON i.id = b.target_id\nWHERE \n    i.function_name = \x27extract_entities\x27\n    AND b.metric_name = %(metric_name)s",
   variantMeans⟩

/-- conll.ipynb cell 24 (jaccard feedback), aggregated in cell 25. -/
def nerJaccardStep : AnalyticsStep :=
  ⟨"SELECT \n    i.variant_name, \n    i.input, \n    i.output, \n    f.value\nFROM \n    JsonInference i\nJOIN \n    FloatMetricFeedback f ON i.id = f.target_id\nWHERE \n    i.function_name = \x27extract_entities\x27\n    AND f.metric_name = \x27jaccard_similarity\x27",
   variantMeans⟩

/-- haiku.ipynb cell 10 (haiku score feedback), aggregated in cell 11. -/
def haikuStep : AnalyticsStep :=
  ⟨"SELECT \n    i.variant_name, \n    i.input, \n    i.output, \n    b.value\nFROM \n    ChatInference i\nJOIN \n    BooleanMetricFeedback b ON i.id = b.target_id\nWHERE \n    i.function_name = \x27write_haiku\x27",
   variantMeans⟩

/-- All analytics queries issued by the two notebooks. -/
def analyticsSteps : List AnalyticsStep :=
  [nerExactMatchStep, nerJaccardStep, haikuStep]

/-- The query joins the inference table with a feedback table on the shared
inference identifier (`i.id = b.target_id` or `i.id = f.target_id`). -/
def joinsOnInferenceId (sql : String) : Bool :=
  containsSub "ON i.id = b.target_id" sql || containsSub "ON i.id = f.target_id" sql

/-- C7 counterexample: the haiku notebook's analytics query does not filter
by metric name at all, so "every analytics query ... filters by both
function name and metric name" fails on it. -/
theorem analytics_metric_filter_counterexample :
    haikuStep ∈ analyticsSteps
    ∧ containsSub "metric_name" haikuStep.sql = false := by
  constructor
  · simp [analyticsSteps]
  · rfl

/-- C7 amended: every analytics query issued by the notebooks joins the
inference table with a feedback table on the shared inference identifier,
filters by function name, and has its rows aggregated as the mean of the
feedback value grouped by variant name; the two NER queries additionally
filter by metric name, but the haiku query filters only by function name. -/
theorem analytics_queries_shape :
    (∀ q ∈ analyticsSteps,
      joinsOnInferenceId q.sql = true
      ∧ containsSub "i.function_name = " q.sql = true
      ∧ q.aggregate = variantMeans)
    ∧ containsSub "metric_name = " nerExactMatchStep.sql = true
    ∧ containsSub "metric_name = " nerJaccardStep.sql = true
    ∧ containsSub "metric_name" haikuStep.sql = false := by
  refine ⟨?_, rfl, rfl, rfl⟩
  intro q hq
  simp only [analyticsSteps, List.mem_cons, List.not_mem_nil, or_false] at hq
  rcases hq with h | h | h <;> subst h <;> exact ⟨rfl, rfl, rfl⟩

theorem analytics_queries_shape_witness :
    joinsOnInferenceId haikuStep.sql = true
    ∧ containsSub "i.function_name = " haikuStep.sql = true
    ∧ haikuStep.aggregate = variantMeans :=
  analytics_queries_shape.1 haikuStep (by simp [analyticsSteps])

/-! ## Concurrency: the semaphore-bounded fan-out
(conll.ipynb cells 13-15 and 29-30; haiku.ipynb cell 6)

asyncio is cooperative single-threaded scheduling: a batch execution is an
arbitrary interleaving of the tasks' primitive steps.  Each task of the
fan-outs does, in program order: acquire the shared semaphore
(`async with semaphore`), start gateway calls, finish them, release.  The
per-task guards encode the source's control flow:

* NER inference task (`make_inference` → `get_entities`): up to 3 retry
  attempts of the inference call, awaited one at a time;
* NER feedback task (`evaluate_send_feedback`): exactly 4 feedback calls
  run concurrently by the inner `asyncio.gather`, all under one permit;
* haiku task (`ratelimited_write_grade_haiku` → `write_grade_haiku`): 2
  inference calls awaited one at a time.

`asyncio.Semaphore(k)` admits an acquire only while fewer than `k` tasks
hold it; `async with` releases only after the body — and hence all the
calls it awaits — is done.  No step starts a call without holding the
semaphore, mirroring the source where every call is syntactically inside
the `async with` block. -/

inductive CallKind
  | inference
  | feedback
deriving DecidableEq

/-- The static shape of one task of a fan-out: how many gateway calls its
body may start, whether they are awaited sequentially (at most one
outstanding) or concurrently (the inner gather), and what it calls. -/
structure TaskShape where
  maxCalls : Nat
  seq : Bool
  kind : CallKind
deriving DecidableEq

/-- `make_inference` in the NER train/test fan-outs: one `get_entities`
call, retried up to 3 times, sequential, semaphore of size 20. -/
def nerInferenceTask : TaskShape := ⟨3, true, .inference⟩

/-- `evaluate_send_feedback` in the NER feedback fan-out: 4 feedback calls
started concurrently by the inner `asyncio.gather`, semaphore of size 20. -/
def nerFeedbackTask : TaskShape := ⟨4, false, .feedback⟩

/-- `ratelimited_write_grade_haiku`: 2 sequential inference calls,
semaphore of size 50. -/
def haikuTask : TaskShape := ⟨2, true, .inference⟩

/-- The dynamic state of one task: whether it holds the semaphore and how
many of its calls have been started and finished. -/
structure TaskCtl where
  shape : TaskShape
  holds : Bool
  started : Nat
  finished : Nat
deriving DecidableEq

/-- The four primitive steps a task can take. -/
inductive Act
  | acq
  | beginCall
  | endCall
  | rel
deriving DecidableEq

/-- Number of tasks currently holding the semaphore. -/
def holdCount (ts : List TaskCtl) : Nat :=
  (ts.map fun t => if t.holds then 1 else 0).sum

/-- Calls of kind `k` currently in flight. -/
def inflightOfKind (k : CallKind) (ts : List TaskCtl) : Nat :=
  (ts.map fun t => if t.shape.kind = k then t.started - t.finished else 0).sum

/-- Global state of one fan-out: the semaphore size and the tasks. -/
structure Sys where
  permits : Nat
  tasks : List TaskCtl
deriving DecidableEq

/-- One primitive step of one task, guarded as in the source:
* `acq` — `semaphore.acquire` succeeds only while fewer than `permits`
  tasks hold the semaphore (and a task acquires once, before its calls);
* `beginCall` — a call is started only while holding the permit, only up
  to the task's call budget, and only when no call is outstanding for a
  sequential task;
* `endCall` — an outstanding call completes;
* `rel` — `async with` exits only after the body's calls are all done. -/
def stepTask (permits : Nat) (ts : List TaskCtl) (t : TaskCtl) : Act → Option TaskCtl
  | .acq =>
    if ¬t.holds ∧ t.started = 0 ∧ holdCount ts < permits then
      some { t with holds := true }
    else none
  | .beginCall =>
    if t.holds = true ∧ t.started < t.shape.maxCalls
        ∧ (t.shape.seq = true → t.finished = t.started) then
      some { t with started := t.started + 1 }
    else none
  | .endCall =>
    if t.finished < t.started then some { t with finished := t.finished + 1 } else none
  | .rel =>
    if t.holds = true ∧ t.finished = t.started then
      some { t with holds := false }
    else none

def applyAct (s : Sys) (step : Nat × Act) : Option Sys :=
  match s.tasks.get? step.1 with
  | none => none
  | some t =>
    match stepTask s.permits s.tasks t step.2 with
    | none => none
    | some t' => some ⟨s.permits, s.tasks.set step.1 t'⟩

/-- Execute a whole interleaving (a list of (task index, step) pairs). -/
def runTrace (s : Sys) : List (Nat × Act) → Option Sys
  | [] => some s
  | step :: tr =>
    match applyAct s step with
    | none => none
    | some s' => runTrace s' tr

def initTask (shape : TaskShape) : TaskCtl := ⟨shape, false, 0, 0⟩

/-- A fan-out of `n` identical tasks against a semaphore of size `permits`. -/
def mkSys (permits : Nat) (shape : TaskShape) (n : Nat) : Sys :=
  ⟨permits, List.replicate n (initTask shape)⟩

def nerInferenceSys (n : Nat) : Sys := mkSys 20 nerInferenceTask n
def nerFeedbackSys (n : Nat) : Sys := mkSys 20 nerFeedbackTask n
def haikuSys (n : Nat) : Sys := mkSys 50 haikuTask n

/-- The inductive invariant: the semaphore size is respected, and each
task's counters are consistent (finished ≤ started ≤ budget, sequential
tasks have at most one call outstanding, and any outstanding call is under
a held permit). -/
def SysOk (shape : TaskShape) (permits : Nat) (s : Sys) : Prop :=
  s.permits = permits
  ∧ holdCount s.tasks ≤ permits
  ∧ ∀ t ∈ s.tasks, t.shape = shape
      ∧ t.finished ≤ t.started
      ∧ t.started ≤ shape.maxCalls
      ∧ (shape.seq = true → t.started - t.finished ≤ 1)
      ∧ (t.finished < t.started → t.holds = true)

theorem holdCount_set (ts : List TaskCtl) (i : Nat) (t t' : TaskCtl)
    (hget : ts.get? i = some t) :
    holdCount (ts.set i t') + (if t.holds then 1 else 0)
      = holdCount ts + (if t'.holds then 1 else 0) := by
  unfold holdCount
  induction ts generalizing i with
  | nil => simp [List.get?] at hget
  | cons hd tl ih =>
    cases i with
    | zero =>
      simp only [List.get?] at hget
      injection hget with hget
      subst hget
      simp only [List.set, List.map_cons, List.sum_cons]
      omega
    | succ j =>
      simp only [List.get?] at hget
      have := ih j hget
      simp only [List.set, List.map_cons, List.sum_cons]
      omega

theorem applyAct_preserves (shape : TaskShape) (permits : Nat) (s s' : Sys)
    (step : Nat × Act) (hok : SysOk shape permits s)
    (h : applyAct s step = some s') : SysOk shape permits s' := by
  obtain ⟨i, a⟩ := step
  obtain ⟨hperm, hcount, hall⟩ := hok
  simp only [applyAct] at h
  cases hget : s.tasks.get? i with
  | none => simp only [hget] at h; exact Option.noConfusion h
  | some t =>
    simp only [hget] at h
    cases hstep : stepTask s.permits s.tasks t a with
    | none => simp only [hstep] at h; exact Option.noConfusion h
    | some t' =>
      simp only [hstep] at h
      injection h with h
      subst h
      have hmemt : t ∈ s.tasks := List.get?_mem hget
      obtain ⟨hshape, hfs, hsm, hseq, hhold⟩ := hall t hmemt
      have hcset := holdCount_set s.tasks i t t' hget
      -- extract the guard and the shape of t' for each action
      have ht' : t'.shape = t.shape ∧ t'.finished ≤ t'.started
          ∧ t'.started ≤ shape.maxCalls
          ∧ (shape.seq = true → t'.started - t'.finished ≤ 1)
          ∧ (t'.finished < t'.started → t'.holds = true)
          ∧ holdCount (s.tasks.set i t') ≤ permits := by
        cases a with
        | acq =>
          simp only [stepTask] at hstep
          split at hstep
          · rename_i hguard
            obtain ⟨hnh, hst0, hcnt⟩ := hguard
            injection hstep with hstep
            subst hstep
            have e1 : (if t.holds then 1 else 0) = 0 := by simp [hnh]
            have e2 : (if ({ t with holds := true } : TaskCtl).holds then 1 else 0) = 1 :=
              by simp
            rw [e1, e2] at hcset
            rw [hperm] at hcnt
            exact ⟨rfl, hfs, hsm, hseq, fun _ => rfl, by omega⟩
          · exact Option.noConfusion hstep
        | beginCall =>
          simp only [stepTask] at hstep
          split at hstep
          · rename_i hguard
            obtain ⟨hh, hlt, hseqg⟩ := hguard
            injection hstep with hstep
            subst hstep
            rw [hshape] at hlt
            have e2 : (if ({ t with started := t.started + 1 } : TaskCtl).holds then 1 else 0)
                = (if t.holds then 1 else 0) := rfl
            rw [e2] at hcset
            refine ⟨rfl, by dsimp only; omega, by dsimp only; omega, ?_, fun _ => hh, by omega⟩
            intro hs
            rw [hshape] at hseqg
            have hfe := hseqg hs
            dsimp only
            omega
          · exact Option.noConfusion hstep
        | endCall =>
          simp only [stepTask] at hstep
          split at hstep
          · rename_i hguard
            injection hstep with hstep
            subst hstep
            have e2 : (if ({ t with finished := t.finished + 1 } : TaskCtl).holds then 1 else 0)
                = (if t.holds then 1 else 0) := rfl
            rw [e2] at hcset
            refine ⟨rfl, by dsimp only; omega, hsm, ?_, fun _ => hhold hguard, by omega⟩
            intro hs
            have := hseq hs
            dsimp only
            omega
          · exact Option.noConfusion hstep
        | rel =>
          simp only [stepTask] at hstep
          split at hstep
          · rename_i hguard
            obtain ⟨hh, heq⟩ := hguard
            injection hstep with hstep
            subst hstep
            have e1 : (if t.holds then 1 else 0) = 1 := by simp [hh]
            have e2 : (if ({ t with holds := false } : TaskCtl).holds then 1 else 0) = 0 :=
              by simp
            rw [e1, e2] at hcset
            refine ⟨rfl, hfs, hsm, hseq, ?_, by omega⟩
            intro hlt
            exact absurd hlt (by dsimp only; omega)
          · exact Option.noConfusion hstep
      refine ⟨hperm, ht'.2.2.2.2.2, ?_⟩
      intro u hu
      rcases List.mem_or_eq_of_mem_set hu with hmem | hequ
      · exact hall u hmem
      · subst hequ
        exact ⟨ht'.1.trans hshape, ht'.2.1, ht'.2.2.1, ht'.2.2.2.1, ht'.2.2.2.2.1⟩

theorem runTrace_preserves (shape : TaskShape) (permits : Nat)
    (tr : List (Nat × Act)) (s s' : Sys) (hok : SysOk shape permits s)
    (h : runTrace s tr = some s') : SysOk shape permits s' := by
  induction tr generalizing s with
  | nil =>
    simp only [runTrace] at h
    injection h with h
    subst h
    exact hok
  | cons step rest ih =>
    simp only [runTrace] at h
    cases ha : applyAct s step with
    | none => rw [ha] at h; exact absurd h (by simp)
    | some s₁ =>
      rw [ha] at h
      exact ih s₁ (applyAct_preserves shape permits s s₁ step hok ha) h

theorem sysOk_mkSys (shape : TaskShape) (permits n : Nat) :
    SysOk shape permits (mkSys permits shape n) := by
  refine ⟨rfl, ?_, ?_⟩
  · simp [holdCount, mkSys, initTask, List.map_replicate, List.sum_replicate]
  · intro t ht
    have := List.eq_of_mem_replicate ht
    subst this
    simp [initTask]

theorem sum_map_mul (c : Nat) (f : TaskCtl → Nat) (ts : List TaskCtl) :
    (ts.map fun t => c * f t).sum = c * (ts.map f).sum := by
  induction ts with
  | nil => simp
  | cons hd tl ih => simp [ih, Nat.mul_add]

/-- A state satisfying the invariant has at most
`(1 if sequential else budget) * permits` calls in flight. -/
theorem inflight_bound (shape : TaskShape) (permits : Nat) (s : Sys) (k : CallKind)
    (hok : SysOk shape permits s) :
    inflightOfKind k s.tasks ≤ (if shape.seq then 1 else shape.maxCalls) * permits := by
  obtain ⟨_, hcount, hall⟩ := hok
  set c : Nat := if shape.seq then 1 else shape.maxCalls with hc
  have hpt : ∀ t ∈ s.tasks,
      (if t.shape.kind = k then t.started - t.finished else 0)
        ≤ c * (if t.holds then 1 else 0) := by
    intro t ht
    obtain ⟨hshape, hfs, hsm, hseq, hhold⟩ := hall t ht
    by_cases hk : t.shape.kind = k
    · rw [if_pos hk]
      by_cases hh : t.holds
      · rw [if_pos hh, Nat.mul_one]
        by_cases hs : shape.seq = true
        · have hb1 := hseq hs
          have hc1 : c = 1 := by rw [hc, if_pos hs]
          omega
        · have hc2 : c = shape.maxCalls := by rw [hc, if_neg hs]
          omega
      · rw [if_neg hh, Nat.mul_zero]
        have hz : ¬ t.finished < t.started := fun hlt => hh (by simp [hhold hlt])
        omega
    · rw [if_neg hk]
      exact Nat.zero_le _
  calc inflightOfKind k s.tasks
      ≤ (s.tasks.map fun t => c * (if t.holds then 1 else 0)).sum :=
        List.sum_le_sum hpt
    _ = c * holdCount s.tasks := sum_map_mul c _ s.tasks
    _ ≤ c * permits := Nat.mul_le_mul_left c hcount

/-- C8 amended: throughout any interleaving of a batch fan-out, calls run
only under a held semaphore permit; the number of in-flight inference
calls is bounded by the semaphore size (20 in the NER fan-outs, 50 in the
haiku fan-out); but the NER feedback fan-out starts 4 concurrent feedback
calls per permit, so its in-flight feedback calls are bounded by
4 × 20 = 80 — not by the semaphore size itself. -/
theorem semaphore_bounds :
    (∀ (n : Nat) (tr : List (Nat × Act)) (s : Sys),
      runTrace (nerInferenceSys n) tr = some s →
        inflightOfKind .inference s.tasks ≤ 20
        ∧ ∀ t ∈ s.tasks, t.finished < t.started → t.holds = true)
    ∧ (∀ (n : Nat) (tr : List (Nat × Act)) (s : Sys),
      runTrace (haikuSys n) tr = some s →
        inflightOfKind .inference s.tasks ≤ 50
        ∧ ∀ t ∈ s.tasks, t.finished < t.started → t.holds = true)
    ∧ (∀ (n : Nat) (tr : List (Nat × Act)) (s : Sys),
      runTrace (nerFeedbackSys n) tr = some s →
        inflightOfKind .feedback s.tasks ≤ 4 * 20
        ∧ ∀ t ∈ s.tasks, t.finished < t.started → t.holds = true) := by
  refine ⟨?_, ?_, ?_⟩ <;> intro n tr s hrun
  · have hok := runTrace_preserves nerInferenceTask 20 tr _ s
      (sysOk_mkSys nerInferenceTask 20 n) hrun
    have hb := inflight_bound nerInferenceTask 20 s .inference hok
    simp only [nerInferenceTask] at hb
    exact ⟨by simpa using hb, fun t ht => (hok.2.2 t ht).2.2.2.2⟩
  · have hok := runTrace_preserves haikuTask 50 tr _ s
      (sysOk_mkSys haikuTask 50 n) hrun
    have hb := inflight_bound haikuTask 50 s .inference hok
    simp only [haikuTask] at hb
    exact ⟨by simpa using hb, fun t ht => (hok.2.2 t ht).2.2.2.2⟩
  · have hok := runTrace_preserves nerFeedbackTask 20 tr _ s
      (sysOk_mkSys nerFeedbackTask 20 n) hrun
    have hb := inflight_bound nerFeedbackTask 20 s .feedback hok
    simp only [nerFeedbackTask] at hb
    exact ⟨by simpa using hb, fun t ht => (hok.2.2 t ht).2.2.2.2⟩

theorem semaphore_bounds_witness :
    inflightOfKind .inference (nerInferenceSys 3).tasks ≤ 20
    ∧ inflightOfKind .feedback (nerFeedbackSys 3).tasks ≤ 4 * 20 :=
  ⟨(semaphore_bounds.1 3 [] (nerInferenceSys 3) rfl).1,
   (semaphore_bounds.2.2 3 [] (nerFeedbackSys 3) rfl).1⟩

/-- The interleaving refuting the claimed bound: six NER feedback tasks
acquire the size-20 semaphore and each starts its four concurrent feedback
calls. -/
def overTrace : List (Nat × Act) :=
  [(0, .acq), (1, .acq), (2, .acq), (3, .acq), (4, .acq), (5, .acq),
   (0, .beginCall), (0, .beginCall), (0, .beginCall), (0, .beginCall),
   (1, .beginCall), (1, .beginCall), (1, .beginCall), (1, .beginCall),
   (2, .beginCall), (2, .beginCall), (2, .beginCall), (2, .beginCall),
   (3, .beginCall), (3, .beginCall), (3, .beginCall), (3, .beginCall),
   (4, .beginCall), (4, .beginCall), (4, .beginCall), (4, .beginCall),
   (5, .beginCall), (5, .beginCall), (5, .beginCall), (5, .beginCall)]

/-- C8 counterexample: in the NER feedback fan-out the in-flight feedback
calls are NOT bounded by the semaphore size 20 — a legal interleaving of
just six tasks reaches 24 concurrent feedback calls. -/
theorem semaphore_bound_counterexample :
    (runTrace (nerFeedbackSys 6) overTrace).map
        (fun s => inflightOfKind .feedback s.tasks) = some 24
    ∧ 20 < 24 :=
  ⟨by decide, by decide⟩

end TZExamples
